import Mathlib

/-
Verification of the retrieval core of a RAG document-question-answering
system: sentence-aware chunking, TTL caches, confidence parsing, the
generation-backend retry loop, the lexical re-ranker and the query
pipeline.  Each definition is a shallow embedding of the corresponding
Python function; strings are modelled as lists of characters, wall-clock
time as an explicit natural-number parameter, and float arithmetic as
exact real arithmetic.
-/

namespace RAG

/-! ### Text primitives

Python whitespace (the ASCII part of the regex class for spaces and of
str.strip), sentence splitting and joining, as used by
app/utils/chunking_service.py. -/

/-- ASCII whitespace characters recognised by Python's strip and by its
regex space class. -/
def isSpace (c : Char) : Bool :=
  c == ' ' || c == '\t' || c == '\n' || c == '\r' || c == '\x0b' || c == '\x0c'

/-- Model of str.strip: drop leading and trailing whitespace. -/
def stripChars (cs : List Char) : List Char :=
  ((cs.dropWhile isSpace).reverse.dropWhile isSpace).reverse

/-- Sentence-ending punctuation of the chunker's split pattern. -/
def isSentEnd (c : Char) : Bool :=
  c == '.' || c == '!' || c == '?'

/-- Whether a part's last accumulated character ends a sentence. -/
def headSentEnd : List Char → Bool
  | p :: _ => isSentEnd p
  | [] => false

/-- Model of splitting on a whitespace run preceded by sentence-ending
punctuation (the look-behind split of chunking_service).  In building
mode the accumulator holds the current part reversed, and its head is
the character immediately before the current position in the original
text; after a split the skipping mode consumes the rest of the greedy
whitespace run before the next part starts. -/
def splitSentAux (skipping : Bool) : List Char → List Char → List (List Char)
  | [], acc => [acc.reverse]
  | c :: rest, acc =>
    if skipping then
      if isSpace c then splitSentAux true rest acc
      else splitSentAux false rest [c]
    else if isSpace c && headSentEnd acc then
      acc.reverse :: splitSentAux true rest []
    else
      splitSentAux false rest (c :: acc)

/-- Model of the chunker's sentence splitter: split, strip each part,
drop the empty parts. -/
def splitIntoSentences (text : List Char) : List (List Char) :=
  ((splitSentAux false text []).map stripChars).filter (fun s => !s.isEmpty)

/-- Join chunks of sentences with a single space, as the Python join with
a one-space separator does. -/
def joinSp : List (List Char) → List Char
  | [] => []
  | [s] => s
  | s :: t :: rest => s ++ ' ' :: joinSp (t :: rest)

/-! ### Chunking service (app/utils/chunking_service.py) -/

/-- Default maximum characters per chunk (environment default 500). -/
def DEFAULT_CHUNK_SIZE : Nat := 500

/-- Default overlap in characters (environment default 100). -/
def DEFAULT_CHUNK_OVERLAP : Nat := 100

/-- Python's falsy-or on an optional integer parameter: a missing value
or 0 both give the default. -/
def orDefault (v : Option Nat) (d : Nat) : Nat :=
  match v with
  | some n => if n = 0 then d else n
  | none => d

/-- Loop body of the private overlap-seeding helper: walk the reversed
sentence list, keeping whole sentences while the running character count
stays within the overlap budget. -/
def getOverlapAux : List (List Char) → Nat → Nat → List (List Char)
  | [], _, _ => []
  | s :: rest, overlapChars, cnt =>
    if overlapChars < cnt + s.length then []
    else s :: getOverlapAux rest overlapChars (cnt + s.length)

/-- Model of the overlap-seeding helper of the chunker: the trailing
sentences of the closed buffer whose total character count (separators
not counted) fits in the overlap budget, in their original order. -/
def getOverlapSentences (sentences : List (List Char)) (overlapChars : Nat) :
    List (List Char) :=
  (getOverlapAux sentences.reverse overlapChars 0).reverse

/-- Character-level force split of one oversized sentence: while the
start index is inside the text, take a window of at most the chunk size,
strip it, keep it when nonempty, and advance the start by the step.  The
fuel is the text length; with a step of at least 1 the loop makes at
most that many iterations. -/
def forceSplitAux (size step : Nat) (text : List Char) :
    Nat → Nat → List (List Char)
  | 0, _ => []
  | fuel + 1, start =>
    if text.length ≤ start then []
    else
      let chunk := stripChars (((text.drop start).take size))
      let tail := forceSplitAux size step text fuel (start + step)
      if chunk.isEmpty then tail else chunk :: tail

/-- Model of the force-split helper, including its own safety clamps.
Python's int of size times 0.2 equals floor division by 5 for every size
the request validators admit; it is modelled as natural division. -/
def forceSplit (text : List Char) (size overlap : Nat) : List (List Char) :=
  let size := if size = 0 then 500 else size
  let overlap := if size ≤ overlap then size / 5 else overlap
  forceSplitAux size (max (size - overlap) 1) text text.length 0

/-- The chunker's main loop over the sentence list.  State: the closed
chunks so far, the current sentence buffer, and the tracked buffer length
(sentence characters plus one separator per gap, as the Python loop keeps
it).  Returns the closed chunks and the final buffer. -/
def chunkLoop (size overlap : Nat) :
    List (List Char) → List (List Char) → List (List Char) → Nat →
    List (List Char) × List (List Char)
  | [], chunks, cur, _ => (chunks, cur)
  | s :: rest, chunks, cur, curLen =>
    if size < s.length then
      -- single sentence exceeds the chunk size: flush the buffer, then
      -- force-split the sentence and reset the buffer
      let chunks := if cur.isEmpty then chunks else chunks ++ [joinSp cur]
      let chunks := chunks ++ forceSplit s size overlap
      chunkLoop size overlap rest chunks [] 0
    else
      let sepLen := if cur.isEmpty then 0 else 1
      if size < curLen + sepLen + s.length ∧ ¬cur.isEmpty then
        let chunks := chunks ++ [joinSp cur]
        let cur2 := getOverlapSentences cur overlap
        let curLen2 := (cur2.map List.length).sum + (cur2.length - 1)
        chunkLoop size overlap rest chunks (cur2 ++ [s])
          (curLen2 + (if 0 < curLen2 then 1 else 0) + s.length)
      else
        chunkLoop size overlap rest chunks (cur ++ [s])
          (curLen + (if 0 < curLen then 1 else 0) + s.length)

/-- Final flush of the chunker: join the remaining buffer; when the
remainder is shorter than the overlap and a chunk exists, merge it into
the last chunk, otherwise append it. -/
def flushRemaining (overlap : Nat) (p : List (List Char) × List (List Char)) :
    List (List Char) :=
  let chunks := p.1
  let cur := p.2
  if cur.isEmpty then chunks
  else
    let remaining := stripChars (joinSp cur)
    if remaining.isEmpty then chunks
    else if h : ¬chunks.isEmpty ∧ remaining.length < overlap then
      chunks.dropLast ++
        [chunks.getLast (by simpa using h.1) ++ ' ' :: remaining]
    else chunks ++ [remaining]

/-- The chunking pipeline after parameter resolution: split into
sentences, run the packing loop, flush. -/
def chunkTextCore (text : List Char) (size overlap : Nat) : List (List Char) :=
  flushRemaining overlap (chunkLoop size overlap (splitIntoSentences text) [] [] 0)

/-- Model of chunk_text: falsy-or defaults, empty-input check, overlap
clamping (Python's int of size times 0.2, modelled as division by 5),
then the core loop. -/
def chunkText (text : List Char) (chunkSize chunkOverlap : Option Nat) :
    List (List Char) :=
  let size := orDefault chunkSize DEFAULT_CHUNK_SIZE
  let overlap := orDefault chunkOverlap DEFAULT_CHUNK_OVERLAP
  if (stripChars text).isEmpty then []
  else
    let overlap := if size ≤ overlap then size / 5 else overlap
    chunkTextCore text size overlap

/-- Length of the longest suffix of the first chunk that the second
chunk starts with: the repeated text between two adjacent chunks. -/
def overlapLen (prev next : List Char) : Nat :=
  (((List.range (min prev.length next.length + 1)).filter
    (fun l => prev.drop (prev.length - l) == next.take l)).foldr max 0)

/-! ### TTL cache (app/utils/cache_service.py)

The dict-backed cache is modelled as an insertion-ordered association
list; the current wall-clock time is an explicit natural-number argument
standing for each internal call to the clock. -/

/-- One cache slot: key, value and absolute expiry time. -/
structure CacheEntry (V : Type) where
  key : String
  value : V
  expiresAt : Nat
  deriving DecidableEq

/-- A cache tier: insertion-ordered store plus its two policy numbers. -/
structure TTLCache (V : Type) where
  store : List (CacheEntry V)
  defaultTTL : Nat
  maxKeys : Nat
  deriving DecidableEq

/-- The internal sweep: drop every entry whose expiry lies strictly in
the past. -/
def evictExpired (now : Nat) (store : List (CacheEntry V)) :
    List (CacheEntry V) :=
  store.filter (fun e => decide (now ≤ e.expiresAt))

/-- Model of get: a missing key yields none; an expired entry is lazily
deleted and yields none; otherwise the value is returned. -/
def TTLCache.get (c : TTLCache V) (now : Nat) (key : String) :
    Option V × TTLCache V :=
  match c.store.find? (fun e => e.key == key) with
  | none => (none, c)
  | some e =>
    if e.expiresAt < now then
      (none, { c with store := c.store.filter (fun x => x.key != key) })
    else (some e.value, c)

/-- Python dict assignment: an existing key keeps its insertion position
and gets the new value, a new key is appended at the end. -/
def setEntry (key : String) (v : V) (exp : Nat) :
    List (CacheEntry V) → List (CacheEntry V)
  | [] => [⟨key, v, exp⟩]
  | e :: rest =>
    if e.key == key then ⟨key, v, exp⟩ :: rest
    else e :: setEntry key v exp rest

/-- Falsy-or on the optional ttl argument: missing or 0 take the tier
default. -/
def ttlOrDefault (ttl : Option Nat) (d : Nat) : Nat :=
  match ttl with
  | some t => if t = 0 then d else t
  | none => d

/-- Model of set: at capacity, sweep-evict the expired entries; if still
at capacity, evict the first (oldest-inserted) entry; then write the key.
A tier with maxKeys 0 raises StopIteration in Python and is outside the
model. -/
def TTLCache.set (c : TTLCache V) (now : Nat) (key : String) (v : V)
    (ttl : Option Nat) : TTLCache V :=
  let store := if c.maxKeys ≤ c.store.length then evictExpired now c.store
               else c.store
  let store := if c.maxKeys ≤ store.length then store.tail else store
  { c with store := setEntry key v (now + ttlOrDefault ttl c.defaultTTL) store }

/-- Model of delete: remove the key when present. -/
def TTLCache.delete (c : TTLCache V) (key : String) : TTLCache V :=
  { c with store := c.store.filter (fun x => x.key != key) }

/-- Model of flush: clear the store. -/
def TTLCache.flush (c : TTLCache V) : TTLCache V :=
  { c with store := [] }

/-- Model of the size property: sweep the expired entries, then count. -/
def TTLCache.size (c : TTLCache V) (now : Nat) : Nat :=
  (evictExpired now c.store).length

/-- One cache-tier operation, with the clock reading it observes. -/
inductive CacheOp (V : Type) where
  | get (now : Nat) (key : String)
  | set (now : Nat) (key : String) (v : V) (ttl : Option Nat)
  | delete (key : String)
  | flush

/-- Apply one operation to a tier (the value a get returns is dropped;
only the state matters for the invariant). -/
def applyOp (c : TTLCache V) : CacheOp V → TTLCache V
  | .get now k => (c.get now k).2
  | .set now k v ttl => c.set now k v ttl
  | .delete k => c.delete k
  | .flush => c.flush

/-- Run a sequence of operations left to right. -/
def runOps (c : TTLCache V) (ops : List (CacheOp V)) : TTLCache V :=
  ops.foldl applyOp c

/-! ### Confidence parsing (app/services/llm/llm_service.py)

The trailing confidence annotation regex, with its semantics spelled out:
the literal opening bracket and the word CONFIDENCE match
case-insensitively, the score is a nonempty digit run, the reason group
is lazy, cannot cross a newline and extends to a closing bracket followed
only by whitespace, and the anchor forces every match to run to the end
of the string, so the search finds the leftmost position from which the
rest of the text is such an annotation. -/

/-- Case-insensitive literal match (the pattern side given lowercase);
returns the rest of the input on success. -/
def matchCI : List Char → List Char → Option (List Char)
  | [], rest => some rest
  | _ :: _, [] => none
  | p :: ps, c :: cs => if c.toLower = p then matchCI ps cs else none

/-- Lazy reason-group scan from a fixed start: grow the group one
character at a time (never across a newline), closing at the first
bracket whose remaining tail is all whitespace. -/
def reasonScan : List Char → List Char → Option (List Char)
  | _, [] => none
  | acc, c :: rest =>
    if c = ']' ∧ acc ≠ [] ∧ rest.all isSpace then some acc.reverse
    else if c = '\n' then none
    else reasonScan (c :: acc) rest

/-- Backtracking over the greedy whitespace run before the reason group:
try the group start after k whitespace characters, largest k first, as
the regex engine does. -/
def reasonTryStarts (r : List Char) : Nat → Option (List Char)
  | 0 => reasonScan [] r
  | k + 1 =>
    match reasonScan [] (r.drop (k + 1)) with
    | some g => some g
    | none => reasonTryStarts r k

/-- Match the whitespace-then-reason-group tail of the pattern. -/
def reasonMatch (r : List Char) : Option (List Char) :=
  reasonTryStarts r (r.takeWhile isSpace).length

/-- Digit run to a natural number, as Python's int on a decimal string. -/
def digitsToNat (ds : List Char) : Nat :=
  ds.foldl (fun n c => n * 10 + (c.toNat - 48)) 0

/-- Try to match the whole confidence annotation at the current position:
the bracketed keyword, the score digits, the slash-ten literal, the pipe,
the reason keyword and the reason tail.  Returns the parsed score and
the raw reason group. -/
def confMatchAt (cs : List Char) : Option (Nat × List Char) := do
  let r1 ← matchCI "[confidence:".toList cs
  let r2 := r1.dropWhile isSpace
  let ds := r2.takeWhile Char.isDigit
  if ds.isEmpty then none
  else
    let r3 := r2.dropWhile Char.isDigit
    let r4 ← matchCI "/10".toList r3
    match r4.dropWhile isSpace with
    | '|' :: r6 =>
      let r7 := r6.dropWhile isSpace
      let r8 ← matchCI "reason:".toList r7
      match reasonMatch r8 with
      | some g => some (digitsToNat ds, g)
      | none => none
    | _ => none

/-- Leftmost-match search: try the pattern at every position from the
left; on success return the text before the match and the captures. -/
def confSearch : List Char → List Char → Option (List Char × Nat × List Char)
  | pre, cs =>
    match confMatchAt cs with
    | some (score, reason) => some (pre.reverse, score, reason)
    | none =>
      match cs with
      | [] => none
      | c :: rest => confSearch (c :: pre) rest

/-- A parsed confidence record: optional score, reason text, level tag. -/
structure Confidence where
  score : Option Nat
  reason : List Char
  level : String
  deriving DecidableEq

/-- The score-to-level bucketing of parse_confidence. -/
def levelOfScore (score : Nat) : String :=
  if 9 ≤ score then "very_high"
  else if 7 ≤ score then "high"
  else if 5 ≤ score then "medium"
  else if 3 ≤ score then "low"
  else "very_low"

/-- Model of parse_confidence.  Every match of the anchored pattern runs
to the end of the string, so substituting the match away leaves exactly
the text before the leftmost match, which is then stripped. -/
def parseConfidence (response : List Char) : List Char × Confidence :=
  match confSearch [] response with
  | some (pre, score, reason) =>
    (stripChars pre, ⟨some score, stripChars reason, levelOfScore score⟩)
  | none => (response, ⟨none, "Confidence not provided".toList, "unknown"⟩)

/-- The level values the data model's enum admits. -/
def levelEnum : List String :=
  ["very_low", "low", "medium", "high", "very_high", "unknown"]

/-- The fixed confidence record of the zero-retrieval response in
app/services/rag/rag_service.py. -/
def noDocsConfidence : Confidence :=
  ⟨some 0, "No documents found".toList, "none"⟩

/-! ### Generation-backend retry loop (chat_completion)

One attempt's outside world is an attempt result; the whole call is a
function of the per-attempt results.  Sleeping and backoff delays do not
change control flow and are not modelled. -/

/-- What one attempt at the backend can produce: a response body, an
HTTP error status raised by raise_for_status (with an optional
Retry-After header), or a non-HTTP exception such as a network error. -/
inductive AttemptResult where
  | ok (text : String)
  | httpErr (status : Nat) (retryAfter : Option Nat)
  | netErr (msg : String)
  deriving DecidableEq

/-- How the whole call ends: the returned text, or the external service
error wrapping the last stored failure (none models a Python last_error
that was never assigned). -/
inductive CallOutcome where
  | ok (text : String)
  | serviceError (wrapped : Option AttemptResult)
  deriving DecidableEq

/-- Outcome of the whole call plus how many attempts ran. -/
structure CallResult where
  result : CallOutcome
  attemptsUsed : Nat
  deriving DecidableEq

/-- The retry loop of chat_completion.  The fuel argument counts the
attempts still allowed and always equals total minus attempt plus 1, so
the loop runs attempts 1 up to total: a 429 always retries, a 5xx
retries while attempts remain, any other exception status breaks at
once, and a non-HTTP exception retries while attempts remain. -/
def chatLoop (outcomes : Nat → AttemptResult) (total : Nat) :
    Nat → Nat → Option AttemptResult → CallResult
  | 0, attempt, lastErr => ⟨.serviceError lastErr, attempt - 1⟩
  | fuel + 1, attempt, _ =>
    match outcomes attempt with
    | .ok t => ⟨.ok t, attempt⟩
    | .httpErr s ra =>
      if s = 429 then
        chatLoop outcomes total fuel (attempt + 1) (some (.httpErr s ra))
      else if 500 ≤ s ∧ attempt < total then
        chatLoop outcomes total fuel (attempt + 1) (some (.httpErr s ra))
      else ⟨.serviceError (some (.httpErr s ra)), attempt⟩
    | .netErr m =>
      if attempt < total then
        chatLoop outcomes total fuel (attempt + 1) (some (.netErr m))
      else ⟨.serviceError (some (.netErr m)), attempt⟩

/-- Model of chat_completion with the configured number of retry
attempts and the sequence of per-attempt backend results. -/
def chatCompletion (total : Nat) (outcomes : Nat → AttemptResult) : CallResult :=
  chatLoop outcomes total total 1 none

/-! ### Relevance re-ranker (app/services/rag/rerank_service.py)

Float arithmetic is modelled exactly over the reals; Python's round to 4
decimal places is modelled as rounding to the nearest multiple of one
ten-thousandth (the bounds proved here do not depend on the tie rule). -/

/-- A retrieved passage as the pipeline passes it around: text, its
source metadata, the vector similarity, and the annotation fields the
re-ranker may add. -/
structure Passage where
  text : String
  filename : String
  chunkIndex : Nat
  documentId : String
  similarityScore : ℝ
  rerankScore : Option ℝ
  keywordScore : Option ℝ
  originalRank : Option Nat

/-- Word characters of the tokenizer's regex, ASCII range. -/
def isWordChar (c : Char) : Bool :=
  c.isAlphanum || c == '_'

/-- Maximal word-character runs of a text (the word-boundary findall). -/
def wordRuns : List Char → List Char → List (List Char)
  | acc, [] => if acc.isEmpty then [] else [acc.reverse]
  | acc, c :: rest =>
    if isWordChar c then wordRuns (c :: acc) rest
    else if acc.isEmpty then wordRuns [] rest
    else acc.reverse :: wordRuns [] rest

/-- Model of the tokenizer: word runs, keep only tokens longer than one
character, lowercase. -/
def tokenize (s : String) : List (List Char) :=
  ((wordRuns [] s.toList).filter (fun w => 1 < w.length)).map
    (fun w => w.map Char.toLower)

/-- Document frequency across the candidate set only: in how many
candidate texts a token occurs. -/
def localDF (chunks : List Passage) (t : List Char) : Nat :=
  chunks.countP (fun c => decide (t ∈ tokenize c.text))

/-- The accumulated BM25-style sum over the query terms, with the
constants of the source (k1 1.5, b 0.75, avgdl 200); a term missing from
the document or from the document-frequency table contributes zero. -/
noncomputable def bm25Raw (queryTerms : List (List Char)) (docText : String)
    (df : List Char → Nat) (nDocs : Nat) : ℝ :=
  let docTokens := tokenize docText
  let dl := docTokens.length
  (queryTerms.map (fun term =>
    let tf := docTokens.count term
    let dfv := df term
    if tf = 0 ∨ dfv = 0 then 0
    else
      Real.log (((nDocs : ℝ) - dfv + 0.5) / (dfv + 0.5) + 1) *
        ((tf * (1.5 + 1)) / (tf + 1.5 * (1 - 0.75 + 0.75 * (dl / 200)))))).sum

/-- Model of the keyword score: zero for an empty document, otherwise
the raw sum normalized by three times the query length and clamped at
one (and zero when the query is empty, the positive-divisor guard). -/
noncomputable def bm25Score (queryTerms : List (List Char)) (docText : String)
    (df : List Char → Nat) (nDocs : Nat) : ℝ :=
  if (tokenize docText).length = 0 then 0
  else if queryTerms.length = 0 then 0
  else min (bm25Raw queryTerms docText df nDocs / (queryTerms.length * 3.0)) 1

/-- Python's round to 4 decimal places, as rounding to the nearest
multiple of one ten-thousandth. -/
noncomputable def round4 (x : ℝ) : ℝ :=
  (⌊x * 10000 + 1 / 2⌋ : ℝ) / 10000

/-- The scoring loop over the enumerated candidates: each passage gets
the fused score, the keyword score and its 1-based original rank. -/
noncomputable def scorePassages (query : String) (chunks : List Passage)
    (vectorWeight keywordWeight : ℝ) : Nat → List Passage → List Passage
  | _, [] => []
  | rank, c :: rest =>
    let kw := bm25Score (tokenize query) c.text (localDF chunks) chunks.length
    let combined := vectorWeight * c.similarityScore + keywordWeight * kw
    { c with
        rerankScore := some (round4 combined),
        keywordScore := some (round4 kw),
        originalRank := some (rank + 1) } ::
      scorePassages query chunks vectorWeight keywordWeight (rank + 1) rest

/-- The final stable descending sort by fused score (Python's stable
sort with reverse); comparison over the reals is classical. -/
noncomputable def sortByRerank (l : List Passage) : List Passage :=
  l.mergeSort (fun a b => decide ((b.rerankScore.getD 0) ≤ (a.rerankScore.getD 0)))

/-- Model of rerank_chunks: empty list unchanged, a single passage gets
only its similarity copied into the fused score and rank 1, an empty
token list returns the candidates unchanged, otherwise score, sort
descending and truncate when a nonzero top n below the length is
given. -/
noncomputable def rerankChunks (query : String) (chunks : List Passage)
    (topN : Option Nat) (vectorWeight keywordWeight : ℝ) : List Passage :=
  match chunks with
  | [] => []
  | [c] => [{ c with rerankScore := some c.similarityScore, originalRank := some 1 }]
  | _ =>
    if tokenize query = [] then chunks
    else
      let sorted := sortByRerank (scorePassages query chunks vectorWeight keywordWeight 0 chunks)
      match topN with
      | some n => if 0 < n ∧ n < sorted.length then sorted.take n else sorted
      | none => sorted

/-! ### Query pipeline (app/services/rag/rag_service.py)

query_documents after a cache miss, with the external collaborators as
parameters: the retrieval results are given, the generation backend is
an oracle function, and the returned flag records whether that oracle
was consulted.  Verification mode and the wall-clock processing-time
field are outside the model. -/

/-- One source citation of the response (rerank fields and preview are
present only when set, as the dict keys are). -/
structure SourceCitation where
  filename : String
  chunkIndex : Nat
  documentId : String
  similarityScore : ℝ
  rerankScore : Option ℝ
  originalRank : Option Nat
  preview : Option String

/-- The response object of the query pipeline (processing time
omitted); the zero-retrieval response carries no top-k and no
chunks-used field, matching the dict the code builds there. -/
structure QueryResponse where
  answer : List Char
  confidence : Confidence
  sources : List SourceCitation
  query : String
  reranked : Bool
  topK : Option Nat
  chunksUsed : Option Nat

/-- The fixed answer text of the zero-retrieval response. -/
def NO_DOCS_ANSWER : String :=
  "No relevant documents found. Please upload documents first."

/-- The text preview of a citation: the first 200 characters, with an
ellipsis marker when the text is longer. -/
def previewOf (s : String) : String :=
  if 200 < s.length then s.take 200 ++ "..." else s

/-- Model of query_documents from the retrieval step on: an empty
result list short-circuits to the fixed no-documents response without
consulting the generation oracle (the boolean records the consultation);
otherwise re-rank or truncate, generate, parse confidence and build the
citation list. -/
noncomputable def queryDocumentsCore (query : String) (topK : Nat)
    (rerankFlag includeMetadata : Bool) (results : List Passage)
    (gen : String → List Passage → String) : QueryResponse × Bool :=
  match results with
  | [] =>
    ({ answer := NO_DOCS_ANSWER.toList,
       confidence := noDocsConfidence,
       sources := [],
       query := query,
       reranked := false,
       topK := none,
       chunksUsed := none }, false)
  | r0 :: rest =>
    let results := r0 :: rest
    let results :=
      if rerankFlag ∧ 1 < results.length then
        rerankChunks query results (some topK) 0.5 0.5
      else if topK < results.length then results.take topK
      else results
    let rawAnswer := gen query results
    let parsed := parseConfidence rawAnswer.toList
    let sources := results.map (fun r =>
      ({ filename := r.filename,
         chunkIndex := r.chunkIndex,
         documentId := r.documentId,
         similarityScore := round4 r.similarityScore,
         rerankScore := r.rerankScore,
         originalRank := if r.rerankScore.isSome then r.originalRank else none,
         preview := if includeMetadata then some (previewOf r.text) else none } :
        SourceCitation))
    ({ answer := parsed.1,
       confidence := parsed.2,
       sources := sources,
       query := query,
       reranked := rerankFlag,
       topK := some topK,
       chunksUsed := some results.length }, true)

/-! ### Theorems -/

/-- C10: chunk_text treats a chunk_size of 0 or a chunk_overlap of 0 as
not provided and substitutes the configured defaults (500 and 100)
because the parameters go through a falsy-or; in particular requesting
zero overlap behaves exactly like requesting the default overlap 100,
and requesting size 0 behaves exactly like omitting the size. -/
theorem chunk_falsy_zero_defaults :
    ∀ (text : List Char) (cs co : Option Nat),
      chunkText text cs (some 0) = chunkText text cs (some DEFAULT_CHUNK_OVERLAP) ∧
      chunkText text cs (some 0) = chunkText text cs none ∧
      chunkText text (some 0) co = chunkText text none co ∧
      chunkText text (some 0) co = chunkText text (some DEFAULT_CHUNK_SIZE) co := by
  intro text cs co
  refine ⟨?_, ?_, ?_, ?_⟩ <;>
    simp [chunkText, orDefault, DEFAULT_CHUNK_SIZE, DEFAULT_CHUNK_OVERLAP]

/-- C4: for every text, chunk size at least 1 and overlap at least the
size, chunking with the oversized overlap equals chunking with the
clamped overlap of a fifth of the size (Python's int of 0.2 times size):
the out-of-range overlap is clamped and the request never fails. -/
theorem chunk_overlap_clamp_equiv :
    ∀ (text : List Char) (size overlap : Nat), 1 ≤ size → size ≤ overlap →
      chunkText text (some size) (some overlap) =
        chunkText text (some size) (some (size / 5)) := by
  intro text size overlap hs ho
  have hsz : ¬size = 0 := by omega
  have hov : ¬overlap = 0 := by omega
  by_cases h5 : size / 5 = 0
  · have h4 : size < 5 := by
      rcases Nat.lt_or_ge size 5 with h | h
      · exact h
      · exact absurd h5 (by have := Nat.div_le_div_right (c := 5) h; omega)
    simp only [chunkText, orDefault, hsz, if_false, hov, h5, if_true,
      DEFAULT_CHUNK_SIZE, DEFAULT_CHUNK_OVERLAP, if_neg hsz, if_neg hov, if_pos rfl]
    have h1 : size ≤ overlap := ho
    have h2 : size ≤ 100 := by omega
    simp [if_pos h1, if_pos h2]
  · have hlt : size / 5 < size := Nat.div_lt_self (by omega) (by norm_num)
    simp only [chunkText, orDefault, if_neg hsz, if_neg hov, if_neg h5]
    have h1 : size ≤ overlap := ho
    have h2 : ¬size ≤ size / 5 := by omega
    simp [if_pos h1, if_neg h2]

/-- C4 witness: a concrete oversized overlap is clamped, at size 8 and
overlap 9. -/
theorem chunk_overlap_clamp_equiv_witness :
    chunkText "Hi there. Bye.".toList (some 8) (some 9) =
      chunkText "Hi there. Bye.".toList (some 8) (some (8 / 5)) :=
  chunk_overlap_clamp_equiv "Hi there. Bye.".toList 8 9 (by decide) (by decide)

/-- The overlap-seeding walk keeps the running character total within
the budget. -/
theorem getOverlapAux_sum_le :
    ∀ (l : List (List Char)) (ov cnt : Nat), cnt ≤ ov →
      ((getOverlapAux l ov cnt).map List.length).sum + cnt ≤ ov := by
  intro l
  induction l with
  | nil => intro ov cnt h; simpa [getOverlapAux] using h
  | cons s rest ih =>
    intro ov cnt h
    by_cases hb : ov < cnt + s.length
    · simpa [getOverlapAux, hb] using h
    · have := ih ov (cnt + s.length) (by omega)
      simp only [getOverlapAux, if_neg hb, List.map_cons, List.sum_cons]
      omega

/-- The overlap-seeding walk returns an initial segment of the reversed
buffer. -/
theorem getOverlapAux_take :
    ∀ (l : List (List Char)) (ov cnt : Nat),
      ∃ k, getOverlapAux l ov cnt = l.take k := by
  intro l
  induction l with
  | nil => intro ov cnt; exact ⟨0, rfl⟩
  | cons s rest ih =>
    intro ov cnt
    by_cases hb : ov < cnt + s.length
    · exact ⟨0, by simp [getOverlapAux, hb]⟩
    · obtain ⟨k, hk⟩ := ih ov (cnt + s.length)
      exact ⟨k + 1, by simp [getOverlapAux, hb, hk]⟩

/-- Joining with single-space separators adds one character per gap on
top of the sentence characters. -/
theorem joinSp_length_le (l : List (List Char)) :
    (joinSp l).length ≤ (l.map List.length).sum + (l.length - 1) := by
  induction l with
  | nil => simp [joinSp]
  | cons s rest ih =>
    cases rest with
    | nil => simp [joinSp]
    | cons t rest2 =>
      simp only [joinSp, List.length_append, List.length_cons, List.map_cons,
        List.sum_cons] at ih ⊢
      omega

/-- C3 amended: the overlap seeded between two adjacent chunks is a
trailing subset of the closed buffer whose sentence characters total at
most the configured overlap; the repeated string itself (separators
included) can exceed the overlap by one character per seeded-sentence
gap, and is bounded by overlap plus seed count minus 1.  Forced splits
of a single oversized sentence instead advance by the step of chunk
size minus overlap, at least 1. -/
theorem overlap_seed_within_budget :
    ∀ (sentences : List (List Char)) (overlap : Nat),
      ((getOverlapSentences sentences overlap).map List.length).sum ≤ overlap ∧
      (∃ k, sentences.drop k = getOverlapSentences sentences overlap) ∧
      (joinSp (getOverlapSentences sentences overlap)).length ≤
        overlap + ((getOverlapSentences sentences overlap).length - 1) ∧
      (∀ (text : List Char) (size ov : Nat), size ≠ 0 → ov < size →
        forceSplit text size ov =
          forceSplitAux size (max (size - ov) 1) text text.length 0) := by
  intro sentences overlap
  have hsum : ((getOverlapSentences sentences overlap).map List.length).sum ≤ overlap := by
    have h := getOverlapAux_sum_le sentences.reverse overlap 0 (Nat.zero_le _)
    simpa [getOverlapSentences, List.map_reverse, List.sum_reverse] using h
  refine ⟨hsum, ?_, ?_, ?_⟩
  · obtain ⟨k, hk⟩ := getOverlapAux_take sentences.reverse overlap 0
    refine ⟨sentences.length - k, ?_⟩
    simp only [getOverlapSentences, hk, List.reverse_take, List.reverse_reverse,
      List.length_reverse]
  · exact le_trans (joinSp_length_le _) (by omega)
  · intro text size ov h0 hlt
    simp [forceSplit, h0, Nat.not_le.mpr hlt]

/-- C3 counterexample: with chunk size 10 and overlap 4 the text of
three sentences produces adjacent chunks whose repeated text (the seeded
sentences joined by a space) has 5 characters, exceeding the configured
overlap of 4. -/
theorem overlap_budget_exceeded_cex :
    chunkText "a. b. cccc.".toList (some 10) (some 4) =
      ["a. b.".toList, "a. b. cccc.".toList] ∧
    overlapLen "a. b.".toList "a. b. cccc.".toList = 5 ∧
    4 < 5 := by
  refine ⟨by decide, by decide, by decide⟩

/-- Writing a key adds at most one entry. -/
theorem setEntry_length_le (key : String) (v : V) (exp : Nat) :
    ∀ l : List (CacheEntry V), (setEntry key v exp l).length ≤ l.length + 1 := by
  intro l
  induction l with
  | nil => simp [setEntry]
  | cons e rest ih =>
    by_cases h : e.key == key
    · simp [setEntry, h]
    · simp only [setEntry, h, Bool.false_eq_true, if_false, List.length_cons]
      omega

/-- Every operation keeps the tier's policy fields. -/
theorem applyOp_maxKeys (c : TTLCache V) (op : CacheOp V) :
    (applyOp c op).maxKeys = c.maxKeys := by
  cases op with
  | get now k =>
    simp only [applyOp, TTLCache.get]
    split
    · rfl
    · split <;> rfl
  | set now k v ttl => rfl
  | delete k => rfl
  | flush => rfl

/-- One operation preserves the capacity bound when the tier can hold at
least one entry. -/
theorem applyOp_card_le (c : TTLCache V) (op : CacheOp V)
    (hmax : 1 ≤ c.maxKeys) (hlen : c.store.length ≤ c.maxKeys) :
    (applyOp c op).store.length ≤ c.maxKeys := by
  cases op with
  | get now k =>
    simp only [applyOp, TTLCache.get]
    split
    · exact hlen
    · split
      · exact le_trans (List.length_filter_le _ _) hlen
      · exact hlen
  | set now k v ttl =>
    simp only [applyOp, TTLCache.set]
    have h1 :
        (if c.maxKeys ≤ c.store.length then evictExpired now c.store
         else c.store).length ≤ c.store.length := by
      split
      · exact List.length_filter_le _ _
      · exact le_rfl
    set s1 := if c.maxKeys ≤ c.store.length then evictExpired now c.store
      else c.store with hs1
    have h2 :
        (if c.maxKeys ≤ s1.length then s1.tail else s1).length + 1 ≤ c.maxKeys := by
      split
      · rename_i h
        have := List.length_tail s1
        omega
      · rename_i h
        omega
    exact le_trans (setEntry_length_le k v _ _) h2
  | delete k => exact le_trans (List.length_filter_le _ _) hlen
  | flush =>
    simp only [applyOp, TTLCache.flush, List.length_nil]
    omega

/-- Any operation sequence from a state within capacity stays within
capacity. -/
theorem runOps_card_le :
    ∀ (ops : List (CacheOp V)) (c : TTLCache V),
      1 ≤ c.maxKeys → c.store.length ≤ c.maxKeys →
      (runOps c ops).store.length ≤ c.maxKeys := by
  intro ops
  induction ops with
  | nil => intro c _ h2; simpa [runOps] using h2
  | cons op rest ih =>
    intro c h1 h2
    have hm := applyOp_maxKeys c op
    have step := applyOp_card_le c op h1 h2
    have tailRun := ih (applyOp c op) (by omega) (by omega)
    simpa [runOps, hm] using tailRun

/-- C5: starting from an empty tier with a capacity of at least one,
every sequence of get, set, delete and flush operations keeps the tier
at or below its capacity: a set at capacity first sweep-evicts the
expired entries and, if still at capacity, drops the oldest-inserted
entry before writing, so no insertion sequence overfills the store. -/
theorem cache_capacity_invariant :
    ∀ (V : Type) (defTTL maxKeys : Nat) (ops : List (CacheOp V)),
      1 ≤ maxKeys →
      (runOps (⟨[], defTTL, maxKeys⟩ : TTLCache V) ops).store.length ≤ maxKeys := by
  intro V defTTL maxKeys ops h
  exact runOps_card_le ops ⟨[], defTTL, maxKeys⟩ h (by simp)

/-- C5 witness: inserting three distinct keys into a two-entry tier
leaves at most two entries. -/
theorem cache_capacity_witness :
    (runOps (⟨[], 100, 2⟩ : TTLCache Nat)
      [.set 0 "k1" 1 none, .set 1 "k2" 2 none,
        .set 2 "k3" 3 none]).store.length ≤ 2 :=
  cache_capacity_invariant Nat 100 2
    [.set 0 "k1" 1 none, .set 1 "k2" 2 none, .set 2 "k3" 3 none] (by decide)

/-- C6: a get never returns an entry whose expiry lies strictly before
the observed time, the expired entry being lazily evicted instead, and
the size property counts exactly the live (unexpired) entries. -/
theorem cache_expired_get_absent :
    ∀ (V : Type) (c : TTLCache V) (now : Nat) (key : String) (e : CacheEntry V),
      c.store.find? (fun x => x.key == key) = some e → e.expiresAt < now →
      ((c.get now key).1 = none ∧
        (c.get now key).2.store = c.store.filter (fun x => x.key != key) ∧
        c.size now = c.store.countP (fun x => decide (now ≤ x.expiresAt))) := by
  intro V c now key e hf he
  refine ⟨?_, ?_, ?_⟩
  · simp [TTLCache.get, hf, he]
  · simp [TTLCache.get, hf, he]
  · simp [TTLCache.size, evictExpired, List.countP_eq_length_filter]

/-- C6 witness: a key set at time 0 with ttl 1 expires at time 1; a get
at time 2 returns absent and the size at time 2 is the live count. -/
theorem cache_expiry_witness :
    (((TTLCache.set (⟨[], 5, 10⟩ : TTLCache Nat) 0 "k" 7 (some 1)).get 2 "k").1 = none ∧
      ((TTLCache.set (⟨[], 5, 10⟩ : TTLCache Nat) 0 "k" 7 (some 1)).get 2 "k").2.store =
        (TTLCache.set (⟨[], 5, 10⟩ : TTLCache Nat) 0 "k" 7 (some 1)).store.filter
          (fun x => x.key != "k") ∧
      (TTLCache.set (⟨[], 5, 10⟩ : TTLCache Nat) 0 "k" 7 (some 1)).size 2 =
        (TTLCache.set (⟨[], 5, 10⟩ : TTLCache Nat) 0 "k" 7 (some 1)).store.countP
          (fun x => decide (2 ≤ x.expiresAt))) :=
  cache_expired_get_absent Nat (TTLCache.set (⟨[], 5, 10⟩ : TTLCache Nat) 0 "k" 7 (some 1))
    2 "k" ⟨"k", 7, 1⟩ (by decide) (by decide)

/-- C2: parse_confidence strips the trailing bracketed confidence
annotation from the answer, parses the score as an integer, buckets the
level at the thresholds 9, 7, 5 and 3, and on an absent annotation
returns the text unchanged with a null score and the unknown level; on
the round-trip example the answer keeps only the sentence, with score 8
and level high. -/
theorem confidence_parse_contract :
    (parseConfidence
        "Paris is the capital. [CONFIDENCE: 8/10 | REASON: direct statement]".toList =
      ("Paris is the capital.".toList,
        ⟨some 8, "direct statement".toList, "high"⟩)) ∧
    (∀ r, (parseConfidence r).2.score = none →
      (parseConfidence r).1 = r ∧ (parseConfidence r).2.level = "unknown") ∧
    (∀ r n, (parseConfidence r).2.score = some n →
      (parseConfidence r).2.level = levelOfScore n) ∧
    ((levelOfScore 10 = "very_high" ∧ levelOfScore 9 = "very_high") ∧
      (levelOfScore 8 = "high" ∧ levelOfScore 7 = "high") ∧
      (levelOfScore 6 = "medium" ∧ levelOfScore 5 = "medium") ∧
      (levelOfScore 4 = "low" ∧ levelOfScore 3 = "low") ∧
      (levelOfScore 2 = "very_low" ∧ levelOfScore 0 = "very_low")) := by
  refine ⟨by decide, ?_, ?_, by decide⟩
  · intro r h
    unfold parseConfidence at h ⊢
    rcases hs : confSearch [] r with _ | ⟨pre, sc, reason⟩ <;> simp [hs] at h ⊢
  · intro r n h
    unfold parseConfidence at h ⊢
    rcases hs : confSearch [] r with _ | ⟨pre, sc, reason⟩ <;> simp [hs] at h ⊢
    rw [h]

/-- C7 counterexample: parse_confidence passes a score of 15 straight
through (15 is outside 1..10 and not null), and the zero-retrieval
confidence record carries level none, which is outside the data model's
level enum, together with score 0. -/
theorem confidence_out_of_enum_cex :
    (parseConfidence "[CONFIDENCE: 15/10 | REASON: extrapolated]".toList).2.score =
      some 15 ∧
    ¬(15 ≤ 10) ∧
    noDocsConfidence.level = "none" ∧
    noDocsConfidence.level ∉ levelEnum ∧
    noDocsConfidence.score = some 0 := by
  refine ⟨by decide, by decide, by decide, by decide, by decide⟩

/-- C7 amended: a confidence record from parse_confidence has either a
null score with level unknown or some parsed nonnegative integer score
(not necessarily at most 10) with the level bucketed from it; every
bucketed or unknown level lies in the enum; the zero-retrieval response
instead carries the fixed score 0 with level none, outside the enum. -/
theorem confidence_fields_amended :
    (∀ r, ((parseConfidence r).2.score = none ∧
        (parseConfidence r).2.level = "unknown") ∨
      (∃ n, (parseConfidence r).2.score = some n ∧
        (parseConfidence r).2.level = levelOfScore n)) ∧
    (∀ n, levelOfScore n ∈ levelEnum) ∧
    ("unknown" : String) ∈ levelEnum ∧
    noDocsConfidence.score = some 0 ∧
    noDocsConfidence.level = "none" ∧
    noDocsConfidence.level ∉ levelEnum := by
  refine ⟨?_, ?_, by decide, by decide, by decide, by decide⟩
  · intro r
    unfold parseConfidence
    rcases hs : confSearch [] r with _ | ⟨pre, sc, reason⟩
    · exact Or.inl ⟨rfl, rfl⟩
    · exact Or.inr ⟨sc, rfl, rfl⟩
  · intro n
    unfold levelOfScore
    split_ifs <;> decide

/-- Whenever the retry loop ends in a service error, the wrapped failure
is either the error state the loop started with (when no attempt ran) or
the recorded result of the attempt at which the loop stopped. -/
theorem chatLoop_error_wraps (outcomes : Nat → AttemptResult) (total : Nat) :
    ∀ (fuel attempt : Nat) (lastErr e : Option AttemptResult) (u : Nat),
      chatLoop outcomes total fuel attempt lastErr = ⟨.serviceError e, u⟩ →
      (u = attempt - 1 ∧ e = lastErr) ∨ (attempt ≤ u ∧ e = some (outcomes u)) := by
  intro fuel
  induction fuel with
  | zero =>
    intro attempt lastErr e u h
    simp only [chatLoop, CallResult.mk.injEq, CallOutcome.serviceError.injEq] at h
    exact Or.inl ⟨h.2.symm, h.1.symm⟩
  | succ fuel ih =>
    intro attempt lastErr e u h
    simp only [chatLoop] at h
    split at h
    · simp at h
    · rename_i s ra heq
      split at h
      · rcases ih (attempt + 1) _ e u h with ⟨h1, h2⟩ | ⟨h1, h2⟩
        · refine Or.inr ⟨by omega, ?_⟩
          have hu : u = attempt := by omega
          rw [hu, heq]; exact h2
        · exact Or.inr ⟨by omega, h2⟩
      · split at h
        · rcases ih (attempt + 1) _ e u h with ⟨h1, h2⟩ | ⟨h1, h2⟩
          · refine Or.inr ⟨by omega, ?_⟩
            have hu : u = attempt := by omega
            rw [hu, heq]; exact h2
          · exact Or.inr ⟨by omega, h2⟩
        · simp only [CallResult.mk.injEq, CallOutcome.serviceError.injEq] at h
          refine Or.inr ⟨by omega, ?_⟩
          rw [← h.1, ← h.2, heq]
    · rename_i m heq
      split at h
      · rcases ih (attempt + 1) _ e u h with ⟨h1, h2⟩ | ⟨h1, h2⟩
        · refine Or.inr ⟨by omega, ?_⟩
          have hu : u = attempt := by omega
          rw [hu, heq]; exact h2
        · exact Or.inr ⟨by omega, h2⟩
      · simp only [CallResult.mk.injEq, CallOutcome.serviceError.injEq] at h
        refine Or.inr ⟨by omega, ?_⟩
        rw [← h.1, ← h.2, heq]

/-- Every attempt strictly before the attempt at which the retry loop
finally stopped ended in an outcome the loop retries: a 429, a 5xx with
attempts remaining, or a non-HTTP failure with attempts remaining.  In
particular no 4xx other than 429 is ever followed by another attempt. -/
theorem chatLoop_prior_retryable (outcomes : Nat → AttemptResult) (total : Nat) :
    ∀ (fuel attempt : Nat) (lastErr : Option AttemptResult) (a : Nat),
      attempt ≤ a →
      a < (chatLoop outcomes total fuel attempt lastErr).attemptsUsed →
      (∃ ra, outcomes a = .httpErr 429 ra) ∨
      (∃ s ra, outcomes a = .httpErr s ra ∧ 500 ≤ s ∧ a < total) ∨
      (∃ m, outcomes a = .netErr m ∧ a < total) := by
  intro fuel
  induction fuel with
  | zero =>
    intro attempt lastErr a ha hu
    simp only [chatLoop] at hu
    omega
  | succ fuel ih =>
    intro attempt lastErr a ha hu
    simp only [chatLoop] at hu
    split at hu
    · dsimp only at hu
      omega
    · rename_i s ra heq
      split at hu
      · rename_i h429
        by_cases hcase : a = attempt
        · subst hcase
          exact Or.inl ⟨ra, by rw [heq, h429]⟩
        · exact ih (attempt + 1) _ a (by omega) hu
      · split at hu
        · rename_i h5xx
          by_cases hcase : a = attempt
          · subst hcase
            exact Or.inr (Or.inl ⟨s, ra, heq, h5xx.1, h5xx.2⟩)
          · exact ih (attempt + 1) _ a (by omega) hu
        · dsimp only at hu
          omega
    · rename_i m heq
      split at hu
      · rename_i hlt
        by_cases hcase : a = attempt
        · subst hcase
          exact Or.inr (Or.inr ⟨m, heq, hlt⟩)
        · exact ih (attempt + 1) _ a (by omega) hu
      · dsimp only at hu
        omega

/-- C1 amended: an HTTP failure below 500 other than 429 never retries,
at whatever attempt it occurs: the loop stops on that very attempt with
a single service error wrapping it (stated both for an arbitrary loop
state with fuel remaining and at the call level for attempt 1); every
attempt strictly before the last one a call executed ended in a
retryable failure, namely a 429, a 5xx with attempts remaining, or a
network error with attempts remaining; a network error with attempts
remaining is retried, the loop moving on to the next attempt rather
than finishing; and whenever the call ends in a service error, the
error wraps the failure recorded at the final attempt run (or no
failure at all when the configured attempt budget is zero). -/
theorem retry_policy_amended :
    ∀ (total : Nat) (outcomes : Nat → AttemptResult),
      (∀ fuel attempt lastErr s ra, 1 ≤ fuel →
        outcomes attempt = .httpErr s ra → 400 ≤ s → s < 500 → s ≠ 429 →
        chatLoop outcomes total fuel attempt lastErr =
          ⟨.serviceError (some (.httpErr s ra)), attempt⟩) ∧
      (∀ s ra, 1 ≤ total → 400 ≤ s → s < 500 → s ≠ 429 →
        outcomes 1 = .httpErr s ra →
        chatCompletion total outcomes =
          ⟨.serviceError (some (.httpErr s ra)), 1⟩) ∧
      (∀ a, 1 ≤ a → a < (chatCompletion total outcomes).attemptsUsed →
        (∃ ra, outcomes a = .httpErr 429 ra) ∨
        (∃ s ra, outcomes a = .httpErr s ra ∧ 500 ≤ s ∧ a < total) ∨
        (∃ m, outcomes a = .netErr m ∧ a < total)) ∧
      (∀ fuel attempt lastErr m, 1 ≤ fuel →
        outcomes attempt = .netErr m → attempt < total →
        chatLoop outcomes total fuel attempt lastErr =
          chatLoop outcomes total (fuel - 1) (attempt + 1) (some (.netErr m))) ∧
      (∀ e u, chatCompletion total outcomes = ⟨.serviceError e, u⟩ →
        (u = 0 ∧ e = none) ∨ (1 ≤ u ∧ e = some (outcomes u))) := by
  intro total outcomes
  refine ⟨?_, ?_, ?_, ?_, ?_⟩
  · intro fuel attempt lastErr s ra hfuel hoc hs400 hs500 hs429
    match fuel, hfuel with
    | f + 1, _ =>
      simp only [chatLoop, hoc]
      rw [if_neg hs429, if_neg (by omega)]
  · intro s ra htot hs400 hs500 hs429 hoc
    cases total with
    | zero => omega
    | succ f =>
      simp only [chatCompletion, chatLoop, hoc]
      rw [if_neg hs429, if_neg (by omega)]
  · intro a ha hu
    exact chatLoop_prior_retryable outcomes total total 1 none a ha hu
  · intro fuel attempt lastErr m hfuel hoc hlt
    match fuel, hfuel with
    | f + 1, _ =>
      simp only [chatLoop, hoc]
      rw [if_pos hlt]
      norm_num
  · intro e u h
    have := chatLoop_error_wraps outcomes total total 1 none e u h
    rcases this with ⟨h1, h2⟩ | ⟨h1, h2⟩
    · exact Or.inl ⟨by omega, h2⟩
    · exact Or.inr ⟨h1, h2⟩

/-- The outcome sequence of the counterexample run: a network error on
the first attempt, success afterwards. -/
def netRetryOutcomes : Nat → AttemptResult :=
  fun a => if a = 1 then .netErr "connection reset" else .ok "recovered"

/-- C1 counterexample: with three configured attempts, a network error
on the first attempt does not fail the call immediately as the claim
states: the code retries and returns the second attempt's response. -/
theorem retry_network_retried_cex :
    netRetryOutcomes 1 = .netErr "connection reset" ∧
    chatCompletion 3 netRetryOutcomes = ⟨.ok "recovered", 2⟩ ∧
    (2 : Nat) ≠ 1 := by
  refine ⟨by decide, by decide, by decide⟩

/-- C9: a query whose retrieval step returns zero passages
short-circuits to the fixed no-relevant-documents response: the fixed
answer text, confidence score 0 with level none, an empty source list,
and the generation oracle is never consulted (the returned flag is
false), for every query, top k, rerank flag, metadata flag and oracle. -/
theorem query_zero_retrieval_short_circuit :
    ∀ (query : String) (topK : Nat) (rerankFlag includeMetadata : Bool)
      (gen : String → List Passage → String),
      queryDocumentsCore query topK rerankFlag includeMetadata [] gen =
        ({ answer := NO_DOCS_ANSWER.toList,
           confidence := noDocsConfidence,
           sources := [],
           query := query,
           reranked := false,
           topK := none,
           chunksUsed := none }, false) ∧
      noDocsConfidence.score = some 0 ∧ noDocsConfidence.level = "none" := by
  intro query topK rerankFlag includeMetadata gen
  exact ⟨rfl, rfl, rfl⟩

/-- Rounding to four decimal places keeps the unit interval. -/
theorem round4_bounds (x : ℝ) (h0 : 0 ≤ x) (h1 : x ≤ 1) :
    0 ≤ round4 x ∧ round4 x ≤ 1 := by
  unfold round4
  have hfl : (⌊x * 10000 + 1 / 2⌋ : ℝ) ≤ x * 10000 + 1 / 2 := Int.floor_le _
  have hge : (0 : ℤ) ≤ ⌊x * 10000 + 1 / 2⌋ := by
    apply Int.le_floor.mpr
    push_cast
    nlinarith
  have hlt : (⌊x * 10000 + 1 / 2⌋ : ℤ) < 10001 := by
    have h : (⌊x * 10000 + 1 / 2⌋ : ℝ) < 10001 := by nlinarith
    exact_mod_cast h
  constructor
  · apply div_nonneg _ (by norm_num)
    exact_mod_cast hge
  · rw [div_le_one (by norm_num)]
    have h : (⌊x * 10000 + 1 / 2⌋ : ℤ) ≤ 10000 := by omega
    exact_mod_cast h

/-- The BM25-style accumulated sum is nonnegative whenever the document
frequencies never exceed the candidate count. -/
theorem bm25Raw_nonneg (terms : List (List Char)) (doc : String)
    (df : List Char → Nat) (n : Nat) (hdf : ∀ t, df t ≤ n) :
    0 ≤ bm25Raw terms doc df n := by
  unfold bm25Raw
  apply List.sum_nonneg
  intro x hx
  obtain ⟨term, _, rfl⟩ := List.mem_map.mp hx
  dsimp only
  split
  · exact le_refl 0
  · rename_i hcond
    push_neg at hcond
    apply mul_nonneg
    · apply Real.log_nonneg
      have hnum : (0 : ℝ) ≤ (n : ℝ) - (df term : ℝ) + 0.5 := by
        have := hdf term
        have hc : ((df term : ℕ) : ℝ) ≤ (n : ℝ) := by exact_mod_cast this
        nlinarith
      have hden : (0 : ℝ) < (df term : ℝ) + 0.5 := by positivity
      nlinarith [div_nonneg hnum hden.le]
    · apply div_nonneg
      · positivity
      · have hdl : (0 : ℝ) ≤ ((tokenize doc).length : ℝ) := Nat.cast_nonneg _
        have htf : (0 : ℝ) ≤ (((tokenize doc).count term : ℕ) : ℝ) :=
          Nat.cast_nonneg _
        nlinarith

/-- The normalized keyword score lies in the unit interval whenever the
document frequencies never exceed the candidate count. -/
theorem bm25Score_bounds (terms : List (List Char)) (doc : String)
    (df : List Char → Nat) (n : Nat) (hdf : ∀ t, df t ≤ n) :
    0 ≤ bm25Score terms doc df n ∧ bm25Score terms doc df n ≤ 1 := by
  unfold bm25Score
  split
  · norm_num
  · split
    · norm_num
    · rename_i hd hq
      constructor
      · apply le_min _ (by norm_num)
        apply div_nonneg (bm25Raw_nonneg terms doc df n hdf)
        positivity
      · exact min_le_right _ _

/-- The per-query document frequency never exceeds the candidate
count. -/
theorem localDF_le (chunks : List Passage) (t : List Char) :
    localDF chunks t ≤ chunks.length :=
  List.countP_le_length _

/-- Every passage the scoring loop emits is a candidate annotated with
the fused score, the keyword score and some 1-based rank. -/
theorem scorePassages_mem (query : String) (all : List Passage) (vw kw : ℝ) :
    ∀ (l : List Passage) (rank : Nat) (p : Passage),
      p ∈ scorePassages query all vw kw rank l →
      ∃ c ∈ l, ∃ r : Nat,
        p = { c with
          rerankScore := some (round4 (vw * c.similarityScore +
            kw * bm25Score (tokenize query) c.text (localDF all) all.length)),
          keywordScore :=
            some (round4 (bm25Score (tokenize query) c.text (localDF all) all.length)),
          originalRank := some (r + 1) } := by
  intro l
  induction l with
  | nil =>
    intro rank p hp
    simp [scorePassages] at hp
  | cons c rest ih =>
    intro rank p hp
    rw [scorePassages] at hp
    rcases List.mem_cons.mp hp with rfl | hp2
    · exact ⟨c, List.mem_cons_self c rest, rank, rfl⟩
    · obtain ⟨c2, hc2, r, hr⟩ := ih (rank + 1) p hp2
      exact ⟨c2, List.mem_cons_of_mem c hc2, r, hr⟩

/-- C8 amended: for a query with at least one token and at least two
candidates whose similarity scores lie in the unit interval, rerank
with equal weights of one half annotates every returned passage with a
fused score in the unit interval and a keyword score in the unit
interval, the keyword score being the rounded BM25-style sum normalized
by three times the query token count and clamped at one.  (A single
candidate instead receives only the fused score, equal to its
similarity; a tokenless query returns the candidates unannotated.) -/
theorem rerank_scores_bounded :
    ∀ (query : String) (chunks : List Passage) (topN : Option Nat),
      (∀ c ∈ chunks, 0 ≤ c.similarityScore ∧ c.similarityScore ≤ 1) →
      tokenize query ≠ [] → 2 ≤ chunks.length →
      (rerankChunks query chunks topN 0.5 0.5).Forall (fun p =>
        (∃ r, p.rerankScore = some r ∧ 0 ≤ r ∧ r ≤ 1) ∧
        (∃ k, p.keywordScore = some k ∧ 0 ≤ k ∧ k ≤ 1 ∧
          k = round4
            (bm25Score (tokenize query) p.text (localDF chunks) chunks.length))) := by
  intro query chunks topN hs ht hl
  rw [List.forall_iff_forall_mem]
  intro p hp
  have hmem : p ∈ scorePassages query chunks 0.5 0.5 0 chunks := by
    match chunks, hl with
    | c1 :: c2 :: rest, _ =>
      simp only [rerankChunks, if_neg ht] at hp
      rcases topN with _ | n
      · exact List.mem_mergeSort.mp hp
      · dsimp only at hp
        by_cases hcond : 0 < n ∧ n < (sortByRerank
            (scorePassages query (c1 :: c2 :: rest) 0.5 0.5 0 (c1 :: c2 :: rest))).length
        · rw [if_pos hcond] at hp
          exact List.mem_mergeSort.mp (List.mem_of_mem_take hp)
        · rw [if_neg hcond] at hp
          exact List.mem_mergeSort.mp hp
  obtain ⟨c, hc, r, hr⟩ := scorePassages_mem query chunks 0.5 0.5 chunks 0 p hmem
  have hdf : ∀ t, localDF chunks t ≤ chunks.length := fun t => localDF_le chunks t
  have hkw := bm25Score_bounds (tokenize query) c.text (localDF chunks)
    chunks.length hdf
  have hsim := hs c hc
  have hcomb0 : 0 ≤ 0.5 * c.similarityScore +
      0.5 * bm25Score (tokenize query) c.text (localDF chunks) chunks.length := by
    nlinarith [hsim.1, hkw.1]
  have hcomb1 : 0.5 * c.similarityScore +
      0.5 * bm25Score (tokenize query) c.text (localDF chunks) chunks.length ≤ 1 := by
    nlinarith [hsim.2, hkw.2]
  have hr4c := round4_bounds _ hcomb0 hcomb1
  have hr4k := round4_bounds _ hkw.1 hkw.2
  subst hr
  refine ⟨⟨_, rfl, hr4c.1, hr4c.2⟩, ⟨_, rfl, hr4k.1, hr4k.2, rfl⟩⟩

/-- First concrete candidate of the re-rank witness. -/
noncomputable def witPassageA : Passage :=
  ⟨"alpha beta gamma", "f1", 0, "d1", 1 / 2, none, none, none⟩

/-- Second concrete candidate of the re-rank witness. -/
noncomputable def witPassageB : Passage :=
  ⟨"delta epsilon", "f2", 1, "d1", 1 / 4, none, none, none⟩

/-- C8 witness: two concrete candidates with similarities one half and
one quarter under a two-token query all come back with unit-interval
fused and keyword scores. -/
theorem rerank_scores_bounded_witness :
    (rerankChunks "alpha delta" [witPassageA, witPassageB] none 0.5 0.5).Forall
      (fun p =>
        (∃ r, p.rerankScore = some r ∧ 0 ≤ r ∧ r ≤ 1) ∧
        (∃ k, p.keywordScore = some k ∧ 0 ≤ k ∧ k ≤ 1 ∧
          k = round4 (bm25Score (tokenize "alpha delta") p.text
            (localDF [witPassageA, witPassageB]) [witPassageA, witPassageB].length))) :=
  rerank_scores_bounded "alpha delta" [witPassageA, witPassageB] none
    (by
      intro c hc
      rcases List.mem_cons.mp hc with rfl | hc2
      · exact ⟨by norm_num [witPassageA], by norm_num [witPassageA]⟩
      · rcases List.mem_cons.mp hc2 with rfl | hc3
        · exact ⟨by norm_num [witPassageB], by norm_num [witPassageB]⟩
        · simp at hc3)
    (by decide) (by simp)

/-- C8 counterexample: a single candidate (with similarity in the unit
interval) is returned with its fused score set to the similarity but
with no keyword score annotation at all, contradicting the claim that
every returned passage carries a keyword score in the unit interval. -/
noncomputable def soloPassage : Passage :=
  ⟨"only text here", "f", 0, "d", 1 / 2, none, none, none⟩

/-- C8 counterexample theorem: the single-candidate run annotates no
keyword score. -/
theorem rerank_single_missing_keyword_cex :
    (rerankChunks "alpha query" [soloPassage] none 0.5 0.5).map
        Passage.keywordScore = [none] ∧
    (rerankChunks "alpha query" [soloPassage] none 0.5 0.5).map
        Passage.rerankScore = [some (1 / 2)] ∧
    0 ≤ soloPassage.similarityScore ∧ soloPassage.similarityScore ≤ 1 := by
  refine ⟨rfl, rfl, by norm_num [soloPassage], by norm_num [soloPassage]⟩

end RAG
